import Mathlib

/-!
Verification of tshort, the link shortener of `main.go`.

A shallow embedding of the identifier generator (`create_link`), the redirect
resolver (`serve_redirect`), the store queries they run against the `pages`
table, and the scheme normalisation of the POST handler, followed by the
properties of these functions.

Go strings are embedded as `String`; the `pages` table is the list of its rows
in insertion order; a query's `row.Next()` reads the first matching row. The
database is taken to answer every statement: connection errors are not modelled.
A run-time panic of `create_link` (a slice out of range) is an outcome of its own.
-/

namespace Tshort

/-! ## `crypto/sha256` and `encoding/base64` (the two library calls of `create_link`) -/

/-- Words of SHA-256 are naturals below `2^32`. -/
def w32 (x : Nat) : Nat := x % 4294967296

/-- Rotate a 32-bit word right by `n` bits. -/
def rotr (x n : Nat) : Nat := w32 ((x >>> n) ||| (x <<< (32 - n)))

def bigSigma0 (x : Nat) : Nat := rotr x 2 ^^^ rotr x 13 ^^^ rotr x 22
def bigSigma1 (x : Nat) : Nat := rotr x 6 ^^^ rotr x 11 ^^^ rotr x 25
def smallSigma0 (x : Nat) : Nat := rotr x 7 ^^^ rotr x 18 ^^^ (x >>> 3)
def smallSigma1 (x : Nat) : Nat := rotr x 17 ^^^ rotr x 19 ^^^ (x >>> 10)
def ch (x y z : Nat) : Nat := (x &&& y) ^^^ ((4294967295 - x) &&& z)
def maj (x y z : Nat) : Nat := (x &&& y) ^^^ (x &&& z) ^^^ (y &&& z)

/-- The 64 round constants. -/
def sha256_K : List Nat :=
  [0x428a2f98, 0x71374491, 0xb5c0fbcf, 0xe9b5dba5, 0x3956c25b, 0x59f111f1, 0x923f82a4, 0xab1c5ed5,
   0xd807aa98, 0x12835b01, 0x243185be, 0x550c7dc3, 0x72be5d74, 0x80deb1fe, 0x9bdc06a7, 0xc19bf174,
   0xe49b69c1, 0xefbe4786, 0x0fc19dc6, 0x240ca1cc, 0x2de92c6f, 0x4a7484aa, 0x5cb0a9dc, 0x76f988da,
   0x983e5152, 0xa831c66d, 0xb00327c8, 0xbf597fc7, 0xc6e00bf3, 0xd5a79147, 0x06ca6351, 0x14292967,
   0x27b70a85, 0x2e1b2138, 0x4d2c6dfc, 0x53380d13, 0x650a7354, 0x766a0abb, 0x81c2c92e, 0x92722c85,
   0xa2bfe8a1, 0xa81a664b, 0xc24b8b70, 0xc76c51a3, 0xd192e819, 0xd6990624, 0xf40e3585, 0x106aa070,
   0x19a4c116, 0x1e376c08, 0x2748774c, 0x34b0bcb5, 0x391c0cb3, 0x4ed8aa4a, 0x5b9cca4f, 0x682e6ff3,
   0x748f82ee, 0x78a5636f, 0x84c87814, 0x8cc70208, 0x90befffa, 0xa4506ceb, 0xbef9a3f7, 0xc67178f2]

/-- The eight working variables / chaining values of SHA-256. -/
structure ShaState where
  a : Nat
  b : Nat
  c : Nat
  d : Nat
  e : Nat
  f : Nat
  g : Nat
  h : Nat
  deriving DecidableEq, Repr

def sha256_init : ShaState :=
  ⟨0x6a09e667, 0xbb67ae85, 0x3c6ef372, 0xa54ff53a, 0x510e527f, 0x9b05688c, 0x1f83d9ab, 0x5be0cd19⟩

/-- Message padding: `0x80`, zeros up to 56 mod 64, then the bit length on 8 bytes. -/
def sha256_pad (msg : List Nat) : List Nat :=
  let n := msg.length
  let zeros := (119 - n % 64) % 64
  let bits := 8 * n
  msg ++ [128] ++ List.replicate zeros 0 ++
    [7, 6, 5, 4, 3, 2, 1, 0].map (fun i => (bits >>> (8 * i)) % 256)

/-- Big-endian 32-bit words of a byte list. -/
def be_words : List Nat → List Nat
  | b0 :: b1 :: b2 :: b3 :: rest => (b0 * 16777216 + b1 * 65536 + b2 * 256 + b3) :: be_words rest
  | _ => []

/-- The message schedule, most recent word first: `n` more words after `rev`. -/
def schedule : Nat → List Nat → List Nat
  | 0, rev => rev
  | n + 1, rev =>
    let w := w32 (smallSigma1 (rev.getD 1 0) + rev.getD 6 0 + smallSigma0 (rev.getD 14 0)
      + rev.getD 15 0)
    schedule n (w :: rev)

/-- One round of the compression function. -/
def sha256_round (s : ShaState) (kw : Nat × Nat) : ShaState :=
  let t1 := s.h + bigSigma1 s.e + ch s.e s.f s.g + kw.1 + kw.2
  let t2 := bigSigma0 s.a + maj s.a s.b s.c
  ⟨w32 (t1 + t2), s.a, s.b, s.c, w32 (s.d + t1), s.e, s.f, s.g⟩

/-- Compression of one 64-byte block into the chaining value. -/
def sha256_block (s : ShaState) (block : List Nat) : ShaState :=
  let w := (schedule 48 (be_words block).reverse).reverse
  let r := (sha256_K.zip w).foldl sha256_round s
  ⟨w32 (s.a + r.a), w32 (s.b + r.b), w32 (s.c + r.c), w32 (s.d + r.d),
   w32 (s.e + r.e), w32 (s.f + r.f), w32 (s.g + r.g), w32 (s.h + r.h)⟩

/-- Fold the compression function over `k` successive 64-byte blocks. -/
def sha256_blocks : Nat → ShaState → List Nat → ShaState
  | 0, s, _ => s
  | k + 1, s, bytes => sha256_blocks k (sha256_block s (bytes.take 64)) (bytes.drop 64)

def word_bytes (w : Nat) : List Nat :=
  [(w >>> 24) % 256, (w >>> 16) % 256, (w >>> 8) % 256, w % 256]

/-- The 32-byte SHA-256 digest of a byte string (`hash.Write` then `hash.Sum(nil)`). -/
def sha256 (msg : List Nat) : List Nat :=
  let p := sha256_pad msg
  let s := sha256_blocks (p.length / 64) sha256_init p
  word_bytes s.a ++ word_bytes s.b ++ word_bytes s.c ++ word_bytes s.d ++
    word_bytes s.e ++ word_bytes s.f ++ word_bytes s.g ++ word_bytes s.h

/-- The alphabet of `base64.URLEncoding`. -/
def encodeURL : List Char :=
  "ABCDEFGHIJKLMNOPQRSTUVWXYZabcdefghijklmnopqrstuvwxyz0123456789-_".data

def b64char (i : Nat) : Char := encodeURL.getD i '='

/-- The padded encoding: `base64.URLEncoding.EncodeToString`. -/
def base64_encode : List Nat → List Char
  | a :: b :: c :: rest =>
    b64char (a >>> 2) :: b64char (((a &&& 3) <<< 4) ||| (b >>> 4)) ::
      b64char (((b &&& 15) <<< 2) ||| (c >>> 6)) :: b64char (c &&& 63) :: base64_encode rest
  | [a, b] =>
    [b64char (a >>> 2), b64char (((a &&& 3) <<< 4) ||| (b >>> 4)), b64char ((b &&& 15) <<< 2), '=']
  | [a] => [b64char (a >>> 2), b64char ((a &&& 3) <<< 4), '=', '=']
  | [] => []

/-- The bytes of a Go string (`[]byte(full_url)`): its UTF-8 encoding. -/
def bytes_of (s : String) : List Nat :=
  s.data.flatMap (fun c => (String.utf8EncodeChar c).map UInt8.toNat)

/-- The line `shasum := base64.URLEncoding.EncodeToString(hash.Sum(nil))` of `create_link`. -/
def shasum (full_url : String) : String :=
  String.mk (base64_encode (sha256 (bytes_of full_url)))

/-! ## The `pages` table -/

/-- A row of the `pages` table: the columns ID, URL and ORIGIN of `insert_link`. -/
structure Record where
  id : String
  url : String
  origin : String
  deriving DecidableEq, Repr

/-- The contents of the `pages` table, oldest row first. -/
abbrev Store := List Record

/-- The uniqueness constraints of the `pages` table. The table is declared outside the
source file, so its constraints are a parameter of the model: every property below is
proved for all four combinations. -/
structure Schema where
  id_unique : Bool
  url_unique : Bool
  deriving DecidableEq, Repr

/-- Rows of `SELECT ... FROM pages WHERE url = $1`. -/
def rows_by_url (url : String) (db : Store) : List Record :=
  db.filter (fun r => decide (r.url = url))

/-- Rows of `SELECT ... FROM pages WHERE id = $1`. -/
def rows_by_id (id : String) (db : Store) : List Record :=
  db.filter (fun r => decide (r.id = id))

/-- Function `url_exists`: `row.Next()` on the rows whose url is `url`. -/
def url_exists (url : String) (db : Store) : Bool :=
  match rows_by_url url db with
  | _ :: _ => true
  | [] => false

/-- Function `id_exists`: `row.Next()` on the rows whose id is `id`. -/
def id_exists (id : String) (db : Store) : Bool :=
  match rows_by_id id db with
  | _ :: _ => true
  | [] => false

/-- Function `query_id_by_url`: the id scanned from the first row, `""` when there is none. -/
def query_id_by_url (url : String) (db : Store) : String :=
  match rows_by_url url db with
  | r :: _ => r.id
  | [] => ""

/-- Function `query_url_by_id`: the url scanned from the first row, `""` when there is none. -/
def query_url_by_id (id : String) (db : Store) : String :=
  match rows_by_id id db with
  | r :: _ => r.url
  | [] => ""

/-- Function `check_uniqueness`: false as soon as a row with this id is returned. The `url`
argument is not read by the body. -/
def check_uniqueness (id : String) (_url : String) (db : Store) : Bool :=
  match rows_by_id id db with
  | _ :: _ => false
  | [] => true

/-- Function `insert_link`: the INSERT statement. When the table rejects the row (an enabled
uniqueness constraint is violated) `Exec` returns an error, which is printed, and the
table is unchanged. -/
def insert_link (sch : Schema) (id url origin : String) (db : Store) : Store :=
  if (sch.id_unique && id_exists id db) || (sch.url_unique && url_exists url db) then db
  else db ++ [⟨id, url, origin⟩]

/-! ## `create_link` -/

/-- The first `n` characters of a string. -/
def str_take (s : String) (n : Nat) : String := String.mk (s.data.take n)

/-- The slice expression `s[0:n]`: a run-time panic (`none`) when `n` is negative or
exceeds the length. It is only applied to the encoded digest, whose characters are
one byte each. -/
def slice_to (s : String) (n : Int) : Option String :=
  if 0 ≤ n ∧ n ≤ (s.length : Int) then some (str_take s n.toNat) else none

/-- How a call of `create_link` ends. `looping` is the fuel of the model running out;
`create_link_never_looping` shows it does not occur. -/
inductive Outcome where
  | returned (link : String)
  | panicked
  | looping
  deriving DecidableEq, Repr

/-- How the collision loop ends. -/
inductive LoopExit where
  | unique (shortsum : String)
  | out_of_range
  | out_of_fuel
  deriving DecidableEq, Repr

/-- The loop `for !check_uniqueness(shortsum, full_url, db)` with body
`hash_len += 1; shortsum = shasum[0:hash_len]`, run for at most `fuel` tests. -/
def collision_loop (db : Store) (sum full_url : String) : Nat → Int → String → LoopExit
  | 0, _, _ => LoopExit.out_of_fuel
  | fuel + 1, hash_len, shortsum =>
    if !check_uniqueness shortsum full_url db then
      match slice_to sum (hash_len + 1) with
      | none => LoopExit.out_of_range
      | some s => collision_loop db sum full_url fuel (hash_len + 1) s
    else LoopExit.unique shortsum

/-- Function `create_link(full_url, ipaddr, leng, db)`: the outcome of the call and the table
after it. -/
def create_link (sch : Schema) (full_url ipaddr : String) (leng : Int) (db : Store) :
    Outcome × Store :=
  let hash_len := leng
  let sum := shasum full_url
  match slice_to sum hash_len with
  | none => (Outcome.panicked, db)
  | some shortsum =>
    if url_exists full_url db then
      (Outcome.returned (query_id_by_url full_url db), db)
    else
      match collision_loop db sum full_url (sum.length + 1) hash_len shortsum with
      | LoopExit.unique s => (Outcome.returned s, insert_link sch s full_url ipaddr db)
      | LoopExit.out_of_range => (Outcome.panicked, db)
      | LoopExit.out_of_fuel => (Outcome.looping, db)

/-! ## `serve_redirect` and the POST branch of `handler` -/

/-- What `serve_redirect` writes: `http.Redirect(w, r, url, 307)` or `http.NotFound`. -/
inductive Response where
  | redirect (url : String) (code : Nat)
  | not_found
  deriving DecidableEq, Repr

/-- Function `serve_redirect(id, db, w, r)`. -/
def serve_redirect (id : String) (db : Store) : Response :=
  if id_exists id db then
    let url := query_url_by_id id db
    Response.redirect url 307
  else Response.not_found

/-- Search of `strings.Index`: the byte offset of the first place where `sub` starts, `i`
being the byte offset of the text that is left. Both strings are UTF-8, where an instance
of `sub` starts at the first byte of a character, so the search moves on by one character
and counts the bytes of its encoding. -/
def index_from (sub : List Char) : List Char → Nat → Int
  | [], i => if sub = [] then (i : Int) else -1
  | c :: cs, i =>
    if sub.isPrefixOf (c :: cs) then (i : Int) else index_from sub cs (i + c.utf8Size)

/-- Library function `strings.Index(s, substr)`: the byte index of the first instance of
`substr` in `s`, or `-1`. -/
def strings_Index (s substr : String) : Int := index_from substr.data s.data 0

/-- Library function `strings.Join(elems, sep)`. -/
def strings_Join (elems : List String) (sep : String) : String := sep.intercalate elems

/-- The url that the POST branch of `handler` passes to `create_link`. -/
def handler_post_url (url : String) : String :=
  if strings_Index url "http" != 0 then
    let s := ["http://", url]
    strings_Join s ""
  else url

/-- The POST branch of `handler` up to the call of `create_link`; `ip` is the part of
`r.RemoteAddr` before the first colon and `hash_len` is `conf.Hash_len`. -/
def handler_post (sch : Schema) (url ip : String) (hash_len : Int) (db : Store) :
    Outcome × Store :=
  create_link sch (handler_post_url url) ip hash_len db

/-! ## Sequences of calls -/

/-- The arguments of one call of `create_link`. -/
structure Call where
  full_url : String
  ipaddr : String
  leng : Int
  deriving DecidableEq, Repr

/-- Run the calls one after another; the outcomes in call order and the final table. -/
def run_calls (sch : Schema) : List Call → Store → List Outcome × Store
  | [], db => ([], db)
  | c :: cs, db =>
    let r := create_link sch c.full_url c.ipaddr c.leng db
    let rest := run_calls sch cs r.2
    (r.1 :: rest.1, rest.2)

/-- A table reached from the empty table by calls of `create_link`. -/
def Reachable (sch : Schema) (db : Store) : Prop :=
  ∃ calls : List Call, (run_calls sch calls []).2 = db

/-! ## Concurrent calls: `create_link` one database statement at a time

The server runs `handler` for each request on its own goroutine, and every query of
`create_link` is a statement of its own on the database. Between two statements of one
call, statements of other calls may run. -/

/-- Where a call of `create_link` stands between two database statements. -/
inductive Pc where
  | entry
  | lookup
  | probe (hash_len : Int) (shortsum : String)
  | insert (shortsum : String)
  | halted (o : Outcome)
  deriving DecidableEq, Repr

/-- The next database statement of a call, with the code around it.
`entry`: lines 159-169, up to the answer of `url_exists`.
`lookup`: line 170, `query_id_by_url`.
`probe`: one test of the loop condition (line 173) and, on a collision, the loop body.
`insert`: lines 179-184, `insert_link` and the return. -/
def step (sch : Schema) (c : Call) (pc : Pc) (db : Store) : Pc × Store :=
  match pc with
  | Pc.entry =>
    match slice_to (shasum c.full_url) c.leng with
    | none => (Pc.halted Outcome.panicked, db)
    | some shortsum =>
      if url_exists c.full_url db then (Pc.lookup, db) else (Pc.probe c.leng shortsum, db)
  | Pc.lookup => (Pc.halted (Outcome.returned (query_id_by_url c.full_url db)), db)
  | Pc.probe hash_len shortsum =>
    if !check_uniqueness shortsum c.full_url db then
      match slice_to (shasum c.full_url) (hash_len + 1) with
      | none => (Pc.halted Outcome.panicked, db)
      | some s => (Pc.probe (hash_len + 1) s, db)
    else (Pc.insert shortsum, db)
  | Pc.insert shortsum =>
    (Pc.halted (Outcome.returned shortsum), insert_link sch shortsum c.full_url c.ipaddr db)
  | Pc.halted o => (Pc.halted o, db)

/-- A call running alone for `n` statements. -/
def run_alone (sch : Schema) (c : Call) : Nat → Pc × Store → Pc × Store
  | 0, st => st
  | n + 1, st => run_alone sch c n (step sch c st.1 st.2)

/-- Concurrent calls: each entry of the schedule names, by position, the call whose next
statement runs. -/
def interleave (sch : Schema) (calls : List Call) : List Nat → List Pc × Store → List Pc × Store
  | [], st => st
  | i :: rest, st =>
    match calls.get? i, st.1.get? i with
    | some c, some pc =>
      let r := step sch c pc st.2
      interleave sch calls rest (st.1.set i r.1, r.2)
    | _, _ => interleave sch calls rest st

/-- ID uniqueness: no two rows share an id. -/
def IdsUnique (db : Store) : Prop := (db.map Record.id).Nodup

/-- URL deduplication: no two rows share a url. -/
def UrlsUnique (db : Store) : Prop := (db.map Record.url).Nodup

/-! ## Lemmas: the encoded digest -/

theorem base64_encode_length (l : List Nat) :
    (base64_encode l).length = 4 * ((l.length + 2) / 3) := by
  induction l using base64_encode.induct with
  | case1 a b c rest ih =>
    simp only [base64_encode, List.length_cons, ih]
    omega
  | case2 a b => simp [base64_encode]
  | case3 a => simp [base64_encode]
  | case4 => simp [base64_encode]

theorem sha256_length (msg : List Nat) : (sha256 msg).length = 32 := by
  simp [sha256, word_bytes]

/-- The embedding of the two library calls agrees with the reference digests: the
standard one-block message `abc`, the empty message, and a url. -/
theorem shasum_reference_values :
    shasum "abc" = "ungWv48Bz-pBQUDeXa4iI7ADYaOWF3qctBD_YfIAFa0=" ∧
    shasum "" = "47DEQpj8HBSa-_TImW-5JCeuQeRkm5NMpJWZG3hSuFU=" ∧
    shasum "http://example.com" = "8OamqXBCpPHxyH9ffUQxWy2FLC31x5kcxmJBv3By0cQ=" := by
  decide

/-- The encoded digest has 44 characters, whatever the url. -/
theorem shasum_length (full_url : String) : (shasum full_url).length = 44 := by
  simp [shasum, String.length, base64_encode_length, sha256_length]

theorem str_take_length (s : String) (n : Nat) (h : n ≤ s.length) :
    (str_take s n).length = n := by
  simp only [str_take, String.length, List.length_take]
  exact Nat.min_eq_left h

theorem slice_to_eq_some (s : String) (n : Nat) (h : n ≤ s.length) :
    slice_to s (n : Int) = some (str_take s n) := by
  simp [slice_to, h]

theorem slice_to_eq_none_of_gt (s : String) (n : Int) (h : (s.length : Int) < n) :
    slice_to s n = none := by
  simp only [slice_to, ite_eq_right_iff]
  intro h2
  omega

theorem slice_to_eq_none_of_neg (s : String) (n : Int) (h : n < 0) : slice_to s n = none := by
  simp only [slice_to, ite_eq_right_iff]
  intro h2
  omega

/-! ## Lemmas: the queries -/

theorem url_exists_iff (url : String) (db : Store) :
    url_exists url db = true ↔ ∃ r ∈ db, r.url = url := by
  unfold url_exists rows_by_url
  constructor
  · intro h
    split at h
    · rename_i r rs heq
      have hm : r ∈ db.filter (fun r => decide (r.url = url)) := by rw [heq]; simp
      rw [List.mem_filter] at hm
      exact ⟨r, hm.1, by simpa using hm.2⟩
    · simp at h
  · rintro ⟨r, hr, hu⟩
    split
    · rfl
    · rename_i heq
      have hm : r ∈ db.filter (fun r => decide (r.url = url)) :=
        List.mem_filter.mpr ⟨hr, by simpa using hu⟩
      rw [heq] at hm
      simp at hm

theorem id_exists_iff (id : String) (db : Store) :
    id_exists id db = true ↔ ∃ r ∈ db, r.id = id := by
  unfold id_exists rows_by_id
  constructor
  · intro h
    split at h
    · rename_i r rs heq
      have hm : r ∈ db.filter (fun r => decide (r.id = id)) := by rw [heq]; simp
      rw [List.mem_filter] at hm
      exact ⟨r, hm.1, by simpa using hm.2⟩
    · simp at h
  · rintro ⟨r, hr, hu⟩
    split
    · rfl
    · rename_i heq
      have hm : r ∈ db.filter (fun r => decide (r.id = id)) :=
        List.mem_filter.mpr ⟨hr, by simpa using hu⟩
      rw [heq] at hm
      simp at hm

theorem url_exists_eq_false_iff (url : String) (db : Store) :
    url_exists url db = false ↔ ∀ r ∈ db, r.url ≠ url := by
  rw [← Bool.not_eq_true, url_exists_iff]
  simp

theorem id_exists_eq_false_iff (id : String) (db : Store) :
    id_exists id db = false ↔ ∀ r ∈ db, r.id ≠ id := by
  rw [← Bool.not_eq_true, id_exists_iff]
  simp

theorem check_uniqueness_eq (id url : String) (db : Store) :
    check_uniqueness id url db = !id_exists id db := by
  unfold check_uniqueness id_exists
  split <;> simp_all

/-- When the url has a row, `query_id_by_url` returns the id of one of its rows. -/
theorem query_id_by_url_spec (url : String) (db : Store) (h : url_exists url db = true) :
    ∃ r ∈ db, r.url = url ∧ query_id_by_url url db = r.id := by
  unfold url_exists at h
  unfold query_id_by_url
  split at h
  · rename_i r rs heq
    have hm : r ∈ rows_by_url url db := by rw [heq]; simp
    unfold rows_by_url at hm
    rw [List.mem_filter] at hm
    exact ⟨r, hm.1, by simpa using hm.2, rfl⟩
  · simp at h

/-- When the id has a row, `query_url_by_id` returns the url of one of its rows. -/
theorem query_url_by_id_spec (id : String) (db : Store) (h : id_exists id db = true) :
    ∃ r ∈ db, r.id = id ∧ query_url_by_id id db = r.url := by
  unfold id_exists at h
  unfold query_url_by_id
  split at h
  · rename_i r rs heq
    have hm : r ∈ rows_by_id id db := by rw [heq]; simp
    unfold rows_by_id at hm
    rw [List.mem_filter] at hm
    exact ⟨r, hm.1, by simpa using hm.2, rfl⟩
  · simp at h

/-! ## Lemmas: the collision loop and the four ways `create_link` ends -/

/-- With fuel for every remaining length the loop either stops at the first free
length, or leaves the encoded digest after finding every length taken. -/
theorem collision_loop_spec (db : Store) (sum u : String) :
    ∀ (fuel L : Nat), L ≤ sum.length → sum.length + 1 ≤ fuel + L →
      (∃ M : Nat, L ≤ M ∧ M ≤ sum.length ∧
          collision_loop db sum u fuel (L : Int) (str_take sum L)
            = LoopExit.unique (str_take sum M) ∧
          id_exists (str_take sum M) db = false ∧
          ∀ k : Nat, L ≤ k → k < M → id_exists (str_take sum k) db = true)
      ∨ (collision_loop db sum u fuel (L : Int) (str_take sum L) = LoopExit.out_of_range ∧
          ∀ k : Nat, L ≤ k → k ≤ sum.length → id_exists (str_take sum k) db = true) := by
  intro fuel
  induction fuel with
  | zero => intro L h1 h2; omega
  | succ n ih =>
    intro L h1 h2
    unfold collision_loop
    rw [check_uniqueness_eq]
    cases hx : id_exists (str_take sum L) db with
    | false =>
      left
      refine ⟨L, le_refl _, h1, by simp, hx, ?_⟩
      intro k hk1 hk2
      omega
    | true =>
      simp only [Bool.not_true, Bool.not_false, if_true]
      by_cases hL : L + 1 ≤ sum.length
      · have hs : slice_to sum ((L : Int) + 1) = some (str_take sum (L + 1)) := by
          have := slice_to_eq_some sum (L + 1) hL
          simpa using this
        rw [hs]
        have hc : ((L : Int) + 1) = ((L + 1 : Nat) : Int) := by push_cast; rfl
        simp only [hc]
        rcases ih (L + 1) hL (by omega) with ⟨M, hM1, hM2, hM3, hM4, hM5⟩ | ⟨hM1, hM2⟩
        · left
          refine ⟨M, by omega, hM2, hM3, hM4, ?_⟩
          intro k hk1 hk2
          by_cases hk : k = L
          · subst hk; exact hx
          · exact hM5 k (by omega) hk2
        · right
          refine ⟨hM1, ?_⟩
          intro k hk1 hk2
          by_cases hk : k = L
          · subst hk; exact hx
          · exact hM2 k (by omega) hk2
      · have hs : slice_to sum ((L : Int) + 1) = none :=
          slice_to_eq_none_of_gt sum _ (by omega)
        rw [hs]
        right
        refine ⟨rfl, ?_⟩
        intro k hk1 hk2
        have hk : k = L := by omega
        subst hk; exact hx

theorem insert_link_fresh (sch : Schema) (id url origin : String) (db : Store)
    (h1 : id_exists id db = false) (h2 : url_exists url db = false) :
    insert_link sch id url origin db = db ++ [⟨id, url, origin⟩] := by
  simp [insert_link, h1, h2]

/-- The four ways a call of `create_link` ends: the base length is outside the encoded
digest; the url is known; a free length is found; every length is taken. -/
theorem create_link_cases (sch : Schema) (u o : String) (L0 : Int) (db : Store) :
    ((L0 < 0 ∨ 44 < L0) ∧ create_link sch u o L0 db = (Outcome.panicked, db))
    ∨ (0 ≤ L0 ∧ L0 ≤ 44 ∧ url_exists u db = true ∧
        create_link sch u o L0 db = (Outcome.returned (query_id_by_url u db), db))
    ∨ (0 ≤ L0 ∧ L0 ≤ 44 ∧ url_exists u db = false ∧
        ∃ L : Nat, L0 ≤ (L : Int) ∧ L ≤ 44 ∧
          id_exists (str_take (shasum u) L) db = false ∧
          (∀ k : Nat, L0 ≤ (k : Int) → k < L → id_exists (str_take (shasum u) k) db = true) ∧
          create_link sch u o L0 db
            = (Outcome.returned (str_take (shasum u) L),
               db ++ [⟨str_take (shasum u) L, u, o⟩]))
    ∨ (0 ≤ L0 ∧ L0 ≤ 44 ∧ url_exists u db = false ∧
        (∀ k : Nat, L0 ≤ (k : Int) → k ≤ 44 → id_exists (str_take (shasum u) k) db = true) ∧
        create_link sch u o L0 db = (Outcome.panicked, db)) := by
  have hlen := shasum_length u
  by_cases hneg : L0 < 0
  · left
    refine ⟨Or.inl hneg, ?_⟩
    simp [create_link, slice_to_eq_none_of_neg _ _ hneg]
  by_cases hbig : 44 < L0
  · left
    refine ⟨Or.inr hbig, ?_⟩
    have : slice_to (shasum u) L0 = none := slice_to_eq_none_of_gt _ _ (by rw [hlen]; exact_mod_cast hbig)
    simp [create_link, this]
  right
  have h0 : 0 ≤ L0 := by omega
  have h44 : L0 ≤ 44 := by omega
  obtain ⟨n, rfl⟩ := Int.eq_ofNat_of_zero_le h0
  have hn : n ≤ (shasum u).length := by rw [hlen]; omega
  have hs := slice_to_eq_some (shasum u) n hn
  cases hu : url_exists u db with
  | true =>
    left
    refine ⟨h0, h44, rfl, ?_⟩
    simp [create_link, hs, hu]
  | false =>
    right
    rcases collision_loop_spec db (shasum u) u ((shasum u).length + 1) n hn (by omega) with
      ⟨M, hM1, hM2, hM3, hM4, hM5⟩ | ⟨hM1, hM2⟩
    · left
      refine ⟨h0, h44, rfl, M, by exact_mod_cast hM1, by omega, hM4, ?_, ?_⟩
      · intro k hk1 hk2
        exact hM5 k (by exact_mod_cast hk1) hk2
      · simp [create_link, hs, hu, hM3, insert_link_fresh sch _ u o db hM4 hu]
    · right
      refine ⟨h0, h44, rfl, ?_, ?_⟩
      · intro k hk1 hk2
        exact hM2 k (by exact_mod_cast hk1) (by omega)
      · simp [create_link, hs, hu, hM1]

/-- The model never runs out of fuel: every call returns or panics. -/
theorem create_link_never_looping (sch : Schema) (u o : String) (L0 : Int) (db : Store) :
    (create_link sch u o L0 db).1 ≠ Outcome.looping := by
  rcases create_link_cases sch u o L0 db with ⟨_, h⟩ | ⟨_, _, _, h⟩ | ⟨_, _, _, L, _, _, _, _, h⟩ |
    ⟨_, _, _, _, h⟩ <;> simp [h]

/-! ## Lemmas: what a call does to the table, and the invariants of reachable tables -/

theorem create_link_mono (sch : Schema) (u o : String) (L0 : Int) (db : Store) :
    ∀ r ∈ db, r ∈ (create_link sch u o L0 db).2 := by
  intro r hr
  rcases create_link_cases sch u o L0 db with ⟨_, h⟩ | ⟨_, _, _, h⟩ | ⟨_, _, _, L, _, _, _, _, h⟩ |
    ⟨_, _, _, _, h⟩ <;> simp [h, hr]

/-- A call that returns leaves a row holding the returned id and the submitted url. -/
theorem create_link_returned_mem (sch : Schema) (u o : String) (L0 : Int) (db : Store)
    (id : String) (h : (create_link sch u o L0 db).1 = Outcome.returned id) :
    ∃ r ∈ (create_link sch u o L0 db).2, r.id = id ∧ r.url = u := by
  rcases create_link_cases sch u o L0 db with ⟨_, hc⟩ | ⟨_, _, hu, hc⟩ |
    ⟨_, _, _, L, _, _, _, _, hc⟩ | ⟨_, _, _, _, hc⟩
  · rw [hc] at h; simp at h
  · rw [hc] at h ⊢
    simp only [Outcome.returned.injEq] at h
    obtain ⟨r, hr, hru, hq⟩ := query_id_by_url_spec u db hu
    exact ⟨r, hr, by rw [← h, hq], hru⟩
  · rw [hc] at h ⊢
    simp only [Outcome.returned.injEq] at h
    exact ⟨⟨str_take (shasum u) L, u, o⟩, by simp, h, rfl⟩
  · rw [hc] at h; simp at h

/-- Every row of the table after a call was there before, or holds the returned id. -/
theorem create_link_new_row (sch : Schema) (u o : String) (L0 : Int) (db : Store) :
    ∀ r ∈ (create_link sch u o L0 db).2,
      r ∈ db ∨ (create_link sch u o L0 db).1 = Outcome.returned r.id := by
  intro r hr
  rcases create_link_cases sch u o L0 db with ⟨_, hc⟩ | ⟨_, _, _, hc⟩ |
    ⟨_, _, _, L, _, _, _, _, hc⟩ | ⟨_, _, _, _, hc⟩
  · rw [hc] at hr; exact Or.inl hr
  · rw [hc] at hr; exact Or.inl hr
  · rw [hc] at hr ⊢
    simp only [List.mem_append, List.mem_singleton] at hr
    rcases hr with hr | hr
    · exact Or.inl hr
    · right; rw [hr]
  · rw [hc] at hr; exact Or.inl hr

theorem create_link_preserves (sch : Schema) (u o : String) (L0 : Int) (db : Store)
    (h1 : IdsUnique db) (h2 : UrlsUnique db) :
    IdsUnique (create_link sch u o L0 db).2 ∧ UrlsUnique (create_link sch u o L0 db).2 := by
  rcases create_link_cases sch u o L0 db with ⟨_, hc⟩ | ⟨_, _, _, hc⟩ |
    ⟨_, _, hu, L, _, _, hfree, _, hc⟩ | ⟨_, _, _, _, hc⟩
  · rw [hc]; exact ⟨h1, h2⟩
  · rw [hc]; exact ⟨h1, h2⟩
  · rw [hc]
    rw [id_exists_eq_false_iff] at hfree
    rw [url_exists_eq_false_iff] at hu
    unfold IdsUnique UrlsUnique at *
    simp only [List.map_append, List.map_cons, List.map_nil]
    constructor
    · rw [List.nodup_append]
      refine ⟨h1, List.nodup_singleton _, ?_⟩
      intro x hx hx2
      simp only [List.mem_singleton] at hx2
      simp only [List.mem_map] at hx
      obtain ⟨r, hr, hrx⟩ := hx
      exact hfree r hr (by rw [hrx, hx2])
    · rw [List.nodup_append]
      refine ⟨h2, List.nodup_singleton _, ?_⟩
      intro x hx hx2
      simp only [List.mem_singleton] at hx2
      simp only [List.mem_map] at hx
      obtain ⟨r, hr, hrx⟩ := hx
      exact hu r hr (by rw [hrx, hx2])
  · rw [hc]; exact ⟨h1, h2⟩

theorem run_calls_preserves (sch : Schema) (calls : List Call) :
    ∀ db : Store, IdsUnique db → UrlsUnique db →
      IdsUnique (run_calls sch calls db).2 ∧ UrlsUnique (run_calls sch calls db).2 := by
  induction calls with
  | nil => intro db h1 h2; exact ⟨h1, h2⟩
  | cons c cs ih =>
    intro db h1 h2
    have h := create_link_preserves sch c.full_url c.ipaddr c.leng db h1 h2
    exact ih _ h.1 h.2

/-- Reachable tables satisfy both invariants of the data model. -/
theorem reachable_inv (sch : Schema) (db : Store) (h : Reachable sch db) :
    IdsUnique db ∧ UrlsUnique db := by
  obtain ⟨calls, rfl⟩ := h
  exact run_calls_preserves sch calls [] (by simp [IdsUnique]) (by simp [UrlsUnique])

theorem reachable_step (sch : Schema) (db : Store) (h : Reachable sch db)
    (u o : String) (L0 : Int) : Reachable sch (create_link sch u o L0 db).2 := by
  obtain ⟨calls, rfl⟩ := h
  refine ⟨calls ++ [⟨u, o, L0⟩], ?_⟩
  have key : ∀ (cs : List Call) (d : Store),
      (run_calls sch (cs ++ [⟨u, o, L0⟩]) d).2
        = (create_link sch u o L0 (run_calls sch cs d).2).2 := by
    intro cs
    induction cs with
    | nil => intro d; simp [run_calls]
    | cons c cs ih => intro d; simp only [List.cons_append, run_calls]; exact ih _
  exact key calls []

theorem run_calls_mono (sch : Schema) (calls : List Call) :
    ∀ db : Store, ∀ r ∈ db, r ∈ (run_calls sch calls db).2 := by
  induction calls with
  | nil => intro db r hr; exact hr
  | cons c cs ih =>
    intro db r hr
    exact ih _ r (create_link_mono sch c.full_url c.ipaddr c.leng db r hr)

theorem ids_unique_inj (db : Store) (h : IdsUnique db) (r1 r2 : Record)
    (h1 : r1 ∈ db) (h2 : r2 ∈ db) (he : r1.id = r2.id) : r1 = r2 :=
  List.inj_on_of_nodup_map h h1 h2 he

/-- In a table with unique ids, looking up the id of a row finds that row. -/
theorem lookup_of_mem (db : Store) (h : IdsUnique db) (r : Record) (hr : r ∈ db) :
    id_exists r.id db = true ∧ query_url_by_id r.id db = r.url := by
  have he : id_exists r.id db = true := (id_exists_iff r.id db).mpr ⟨r, hr, rfl⟩
  obtain ⟨r2, hr2, hid, hq⟩ := query_url_by_id_spec r.id db he
  have := ids_unique_inj db h r2 r hr2 hr hid
  subst this
  exact ⟨he, hq⟩

theorem rows_by_url_length_le (u : String) (db : Store) (h : UrlsUnique db) :
    (rows_by_url u db).length ≤ 1 := by
  induction db with
  | nil => simp [rows_by_url]
  | cons r rs ih =>
    unfold UrlsUnique at h
    simp only [List.map_cons, List.nodup_cons, List.mem_map, not_exists, not_and] at h
    have ih2 := ih h.2
    unfold rows_by_url at ih2 ⊢
    by_cases hr : r.url = u
    · have hnil : List.filter (fun r => decide (r.url = u)) rs = [] := by
        rw [List.filter_eq_nil_iff]
        intro a ha
        have := h.1 a ha
        simp only [decide_eq_true_eq]
        intro hau
        exact this (by rw [hau, hr])
      simp [List.filter_cons, hr, hnil]
    · simp [List.filter_cons, hr, ih2]

theorem run_calls_returned_mem (sch : Schema) (calls : List Call) :
    ∀ (db : Store) (c : Call) (id : String),
      (c, Outcome.returned id) ∈ calls.zip (run_calls sch calls db).1 →
      ∃ r ∈ (run_calls sch calls db).2, r.id = id ∧ r.url = c.full_url := by
  induction calls with
  | nil => intro db c id h; simp at h
  | cons c0 cs ih =>
    intro db c id h
    simp only [run_calls, List.zip_cons_cons, List.mem_cons, Prod.mk.injEq] at h
    rcases h with ⟨hc, ho⟩ | h
    · subst hc
      obtain ⟨r, hr, h1, h2⟩ := create_link_returned_mem sch c.full_url c.ipaddr c.leng db id ho.symm
      exact ⟨r, run_calls_mono sch cs _ r hr, h1, h2⟩
    · exact ih _ c id h

theorem run_calls_new_row (sch : Schema) (calls : List Call) :
    ∀ (db : Store), ∀ r ∈ (run_calls sch calls db).2,
      r ∈ db ∨ Outcome.returned r.id ∈ (run_calls sch calls db).1 := by
  induction calls with
  | nil => intro db r hr; exact Or.inl hr
  | cons c cs ih =>
    intro db r hr
    simp only [run_calls] at hr ⊢
    rcases ih _ r hr with h | h
    · rcases create_link_new_row sch c.full_url c.ipaddr c.leng db r h with h2 | h2
      · exact Or.inl h2
      · right; rw [h2]; simp
    · right; simp [h]

/-! ## The claims about `create_link` and `serve_redirect` -/

/-- C1 (round trip): on a table reached from the empty table by calls of `create_link`,
whenever `create_link` on url `u` returns an id, looking that id up in the resulting table
(`id_exists`, then `query_url_by_id`, as `serve_redirect` does) finds a row and yields
exactly `u`, so `serve_redirect` redirects to `u`. -/
theorem create_link_round_trip (sch : Schema) (db : Store) (hreach : Reachable sch db)
    (u origin : String) (L0 : Int) (id : String)
    (hret : (create_link sch u origin L0 db).1 = Outcome.returned id) :
    id_exists id (create_link sch u origin L0 db).2 = true ∧
    query_url_by_id id (create_link sch u origin L0 db).2 = u ∧
    serve_redirect id (create_link sch u origin L0 db).2 = Response.redirect u 307 := by
  have hinv := (reachable_inv sch _ (reachable_step sch db hreach u origin L0)).1
  obtain ⟨r, hr, hid, hurl⟩ := create_link_returned_mem sch u origin L0 db id hret
  have hl := lookup_of_mem _ hinv r hr
  rw [hid, hurl] at hl
  refine ⟨hl.1, hl.2, ?_⟩
  simp [serve_redirect, hl.1, hl.2]

/-- C2 (idempotence, as the code has it): on a table reached from the empty table,
when a first call of `create_link` on `u` returns an id, a second call on `u` with any
other origin returns the same id and leaves the table as the first call left it, and that
table holds exactly one row whose url is `u`. -/
theorem create_link_idempotent (sch : Schema) (db : Store) (hreach : Reachable sch db)
    (u o1 o2 : String) (L0 : Int) (id : String)
    (hret : (create_link sch u o1 L0 db).1 = Outcome.returned id) :
    create_link sch u o2 L0 (create_link sch u o1 L0 db).2
      = (Outcome.returned id, (create_link sch u o1 L0 db).2) ∧
    (rows_by_url u (create_link sch u o1 L0 db).2).length = 1 := by
  have hinv := (reachable_inv sch _ (reachable_step sch db hreach u o1 L0)).2
  obtain ⟨r, hr, hid, hurl⟩ := create_link_returned_mem sch u o1 L0 db id hret
  have hrange : 0 ≤ L0 ∧ L0 ≤ 44 := by
    rcases create_link_cases sch u o1 L0 db with ⟨_, hc⟩ | ⟨h1, h2, _⟩ | ⟨h1, h2, _⟩ | ⟨h1, h2, _⟩
    · rw [hc] at hret; simp at hret
    · exact ⟨h1, h2⟩
    · exact ⟨h1, h2⟩
    · exact ⟨h1, h2⟩
  generalize (create_link sch u o1 L0 db).2 = db1 at hinv hr ⊢
  have hex : url_exists u db1 = true := (url_exists_iff u db1).mpr ⟨r, hr, hurl⟩
  constructor
  · rcases create_link_cases sch u o2 L0 db1 with ⟨hc, _⟩ | ⟨_, _, _, hc⟩ | ⟨_, _, hu, _⟩ |
      ⟨_, _, hu, _⟩
    · omega
    · rw [hc]
      obtain ⟨r2, hr2, hu2, hq⟩ := query_id_by_url_spec u db1 hex
      have : r2 = r := List.inj_on_of_nodup_map hinv hr2 hr (by rw [hu2, hurl])
      rw [hq, this, hid]
    · rw [hex] at hu; simp at hu
    · rw [hex] at hu; simp at hu
  · have hle := rows_by_url_length_le u db1 hinv
    have hmem : r ∈ rows_by_url u db1 := by
      unfold rows_by_url
      exact List.mem_filter.mpr ⟨hr, by simpa using hurl⟩
    have hpos : 0 < (rows_by_url u db1).length := List.length_pos_of_mem hmem
    omega

/-- C3 (injectivity): in a sequence of `create_link` calls started on the empty table, two
calls made with different urls that both return (in particular when every call of the
sequence returns) return different ids, and no two rows of the resulting table share an
id. -/
theorem create_link_injective (sch : Schema) (calls : List Call) (c1 c2 : Call)
    (id1 id2 : String)
    (h1 : (c1, Outcome.returned id1) ∈ calls.zip (run_calls sch calls []).1)
    (h2 : (c2, Outcome.returned id2) ∈ calls.zip (run_calls sch calls []).1)
    (hne : c1.full_url ≠ c2.full_url) :
    id1 ≠ id2 ∧ IdsUnique (run_calls sch calls []).2 := by
  have hinv := (reachable_inv sch (run_calls sch calls []).2 ⟨calls, rfl⟩).1
  refine ⟨?_, hinv⟩
  intro he
  obtain ⟨r1, hr1, hi1, hu1⟩ := run_calls_returned_mem sch calls [] c1 id1 h1
  obtain ⟨r2, hr2, hi2, hu2⟩ := run_calls_returned_mem sch calls [] c2 id2 h2
  have : r1 = r2 := ids_unique_inj _ hinv r1 r2 hr1 hr2 (by rw [hi1, hi2, he])
  apply hne
  rw [← hu1, ← hu2, this]

/-- C4 (minimality): for every table, every url `u` with no row in it and every base
length for which `create_link` returns, the returned id is the first `L` characters of the
URL-safe base64 encoding of the SHA-256 digest of `u`, where `L` is the smallest length
from the base length on (and at most 44) such that no row of another url holds that
`L`-character beginning as its id: every shorter length from the base length on is held by
a row of another url. -/
theorem create_link_minimal (sch : Schema) (db : Store) (u origin : String) (L0 : Int)
    (id : String) (hnew : ∀ r ∈ db, r.url ≠ u)
    (hret : (create_link sch u origin L0 db).1 = Outcome.returned id) :
    ∃ L : Nat, L0 ≤ (L : Int) ∧ L ≤ 44 ∧
      id = str_take (String.mk (base64_encode (sha256 (bytes_of u)))) L ∧
      id.length = L ∧
      (∀ r ∈ db, r.url ≠ u → r.id ≠ id) ∧
      ∀ k : Nat, L0 ≤ (k : Int) → k < L →
        ∃ r ∈ db, r.url ≠ u ∧
          r.id = str_take (String.mk (base64_encode (sha256 (bytes_of u)))) k := by
  have hu : url_exists u db = false := (url_exists_eq_false_iff u db).mpr hnew
  rcases create_link_cases sch u origin L0 db with ⟨_, hc⟩ | ⟨_, _, hu2, _⟩ |
    ⟨_, _, _, L, hL1, hL2, hfree, hmin, hc⟩ | ⟨_, _, _, _, hc⟩
  · rw [hc] at hret; simp at hret
  · rw [hu] at hu2; simp at hu2
  · rw [hc] at hret
    simp only [Outcome.returned.injEq] at hret
    refine ⟨L, hL1, hL2, hret.symm, ?_, ?_, ?_⟩
    · rw [← hret]
      exact str_take_length _ _ (by rw [shasum_length]; exact hL2)
    · intro r hr _
      rw [← hret]
      exact (id_exists_eq_false_iff _ db).mp hfree r hr
    · intro k hk1 hk2
      obtain ⟨r, hr, hid⟩ := (id_exists_iff _ db).mp (hmin k hk1 hk2)
      exact ⟨r, hr, hnew r hr, hid⟩
  · rw [hc] at hret; simp at hret

/-- C5 (unknown identifier): after any sequence of `create_link` calls started on the empty
table, resolving an id that none of the calls returned answers NotFound; more generally
`serve_redirect` answers NotFound for every id that no row holds, and for every row of the
table it redirects (307) the row's id to the row's url. -/
theorem serve_redirect_spec (sch : Schema) (calls : List Call) :
    (∀ id : String, Outcome.returned id ∉ (run_calls sch calls []).1 →
      serve_redirect id (run_calls sch calls []).2 = Response.not_found) ∧
    (∀ id : String, (∀ r ∈ (run_calls sch calls []).2, r.id ≠ id) →
      serve_redirect id (run_calls sch calls []).2 = Response.not_found) ∧
    (∀ r ∈ (run_calls sch calls []).2,
      serve_redirect r.id (run_calls sch calls []).2 = Response.redirect r.url 307) := by
  have hinv := (reachable_inv sch (run_calls sch calls []).2 ⟨calls, rfl⟩).1
  have hnf : ∀ id : String, (∀ r ∈ (run_calls sch calls []).2, r.id ≠ id) →
      serve_redirect id (run_calls sch calls []).2 = Response.not_found := by
    intro id h
    have := (id_exists_eq_false_iff id _).mpr h
    simp [serve_redirect, this]
  refine ⟨?_, hnf, ?_⟩
  · intro id hid
    apply hnf
    intro r hr he
    rcases run_calls_new_row sch calls [] r hr with h | h
    · simp at h
    · rw [he] at h; exact hid h
  · intro r hr
    have hl := lookup_of_mem _ hinv r hr
    simp [serve_redirect, hl.1, hl.2]

/-- C6 (side effects): for every table, url, origin and base length for which
`create_link` returns: if the table already holds a row with that url the table is
unchanged; otherwise the table after is the table before followed by exactly one new row
holding the returned id, the url and the origin. In both cases every row present before is
still present, unchanged. -/
theorem create_link_effect (sch : Schema) (db : Store) (u origin : String) (L0 : Int)
    (id : String) (hret : (create_link sch u origin L0 db).1 = Outcome.returned id) :
    ((∃ r ∈ db, r.url = u) → (create_link sch u origin L0 db).2 = db) ∧
    ((∀ r ∈ db, r.url ≠ u) →
      (create_link sch u origin L0 db).2 = db ++ [⟨id, u, origin⟩] ∧
      (⟨id, u, origin⟩ : Record) ∉ db) ∧
    (∀ r ∈ db, r ∈ (create_link sch u origin L0 db).2) := by
  refine ⟨?_, ?_, create_link_mono sch u origin L0 db⟩
  · intro hex
    have hu := (url_exists_iff u db).mpr hex
    rcases create_link_cases sch u origin L0 db with ⟨_, hc⟩ | ⟨_, _, _, hc⟩ |
      ⟨_, _, hu2, _⟩ | ⟨_, _, _, _, hc⟩
    · rw [hc]
    · rw [hc]
    · rw [hu] at hu2; simp at hu2
    · rw [hc]
  · intro hnew
    have hu := (url_exists_eq_false_iff u db).mpr hnew
    rcases create_link_cases sch u origin L0 db with ⟨_, hc⟩ | ⟨_, _, hu2, _⟩ |
      ⟨_, _, _, L, _, _, _, _, hc⟩ | ⟨_, _, _, _, hc⟩
    · rw [hc] at hret; simp at hret
    · rw [hu] at hu2; simp at hu2
    · rw [hc] at hret ⊢
      simp only [Outcome.returned.injEq] at hret
      rw [hret]
      refine ⟨rfl, ?_⟩
      intro hmem
      exact hnew _ hmem rfl
    · rw [hc] at hret; simp at hret

/-- C7 (what the code does on exhaustion): when the url has no row and every beginning of
its encoded digest from the base length up to the full 44 characters is the id of a row,
`create_link` ends in the out-of-range slice panic of `shasum[0:hash_len]`, with the table
unchanged; it has no error result to return. -/
theorem create_link_exhausted (sch : Schema) (db : Store) (u origin : String) (L0 : Int)
    (hnew : ∀ r ∈ db, r.url ≠ u)
    (hall : ∀ k : Nat, L0 ≤ (k : Int) → k ≤ 44 →
      ∃ r ∈ db, r.id = str_take (shasum u) k) :
    create_link sch u origin L0 db = (Outcome.panicked, db) := by
  have hu : url_exists u db = false := (url_exists_eq_false_iff u db).mpr hnew
  rcases create_link_cases sch u origin L0 db with ⟨_, hc⟩ | ⟨_, _, hu2, _⟩ |
    ⟨_, _, _, L, hL1, hL2, hfree, _, _⟩ | ⟨_, _, _, _, hc⟩
  · exact hc
  · rw [hu] at hu2; simp at hu2
  · have := (id_exists_iff _ db).mpr (hall L hL1 hL2)
    rw [hfree] at this; simp at this
  · exact hc

/-- C1, at a concrete input: after `http://d` was given the id `N`, submitting
`http://i` (whose encoded digest also starts with `N`) returns `Nu`, which resolves to
`http://i`. -/
theorem create_link_round_trip_witness :
    Reachable ⟨true, true⟩ [⟨"N", "http://d", "10.0.0.1"⟩] ∧
    (create_link ⟨true, true⟩ "http://i" "10.0.0.2" 1 [⟨"N", "http://d", "10.0.0.1"⟩]).1
      = Outcome.returned "Nu" ∧
    serve_redirect "Nu"
      (create_link ⟨true, true⟩ "http://i" "10.0.0.2" 1 [⟨"N", "http://d", "10.0.0.1"⟩]).2
      = Response.redirect "http://i" 307 :=
  ⟨⟨[⟨"http://d", "10.0.0.1", 1⟩], by decide⟩, by decide,
    (create_link_round_trip ⟨true, true⟩ [⟨"N", "http://d", "10.0.0.1"⟩]
      ⟨[⟨"http://d", "10.0.0.1", 1⟩], by decide⟩ "http://i" "10.0.0.2" 1 "Nu"
      (by decide)).2.2⟩

/-- C2 as stated fails: with base length 45 on the empty table the first call does not
return an id at all, the slice `shasum[0:45]` being out of range for 44 characters. -/
theorem create_link_idempotent_counterexample :
    Reachable ⟨true, true⟩ [] ∧ (1 : Int) ≤ 45 ∧
    create_link ⟨true, true⟩ "http://example.com" "10.0.0.1" 45 [] = (Outcome.panicked, []) ∧
    ¬ ∃ id : String,
      (create_link ⟨true, true⟩ "http://example.com" "10.0.0.1" 45 []).1
        = Outcome.returned id := by
  have h : create_link ⟨true, true⟩ "http://example.com" "10.0.0.1" 45 []
      = (Outcome.panicked, []) := by decide
  refine ⟨⟨[], rfl⟩, by decide, h, ?_⟩
  rw [h]
  simp

/-- C2, at a concrete input: `http://example.com` submitted twice with base length 6 from
two origins gets `8OamqX` both times and one row. -/
theorem create_link_idempotent_witness :
    (create_link ⟨true, true⟩ "http://example.com" "10.0.0.1" 6 []).1
      = Outcome.returned "8OamqX" ∧
    create_link ⟨true, true⟩ "http://example.com" "10.0.0.2" 6
        (create_link ⟨true, true⟩ "http://example.com" "10.0.0.1" 6 []).2
      = (Outcome.returned "8OamqX",
         (create_link ⟨true, true⟩ "http://example.com" "10.0.0.1" 6 []).2) ∧
    (rows_by_url "http://example.com"
      (create_link ⟨true, true⟩ "http://example.com" "10.0.0.1" 6 []).2).length = 1 :=
  ⟨by decide,
    create_link_idempotent ⟨true, true⟩ [] ⟨[], rfl⟩ "http://example.com" "10.0.0.1"
      "10.0.0.2" 6 "8OamqX" (by decide)⟩

/-- C3, at a concrete input: `http://d` then `http://i` with base length 1 get `N` and
`Nu`. -/
theorem create_link_injective_witness :
    ((⟨"http://d", "10.0.0.1", 1⟩ : Call), Outcome.returned "N") ∈
      [(⟨"http://d", "10.0.0.1", 1⟩ : Call), ⟨"http://i", "10.0.0.2", 1⟩].zip
        (run_calls ⟨false, false⟩
          [⟨"http://d", "10.0.0.1", 1⟩, ⟨"http://i", "10.0.0.2", 1⟩] []).1 ∧
    ((⟨"http://i", "10.0.0.2", 1⟩ : Call), Outcome.returned "Nu") ∈
      [(⟨"http://d", "10.0.0.1", 1⟩ : Call), ⟨"http://i", "10.0.0.2", 1⟩].zip
        (run_calls ⟨false, false⟩
          [⟨"http://d", "10.0.0.1", 1⟩, ⟨"http://i", "10.0.0.2", 1⟩] []).1 ∧
    "N" ≠ "Nu" ∧
    IdsUnique (run_calls ⟨false, false⟩
      [⟨"http://d", "10.0.0.1", 1⟩, ⟨"http://i", "10.0.0.2", 1⟩] []).2 :=
  ⟨by decide, by decide,
    create_link_injective ⟨false, false⟩
      [⟨"http://d", "10.0.0.1", 1⟩, ⟨"http://i", "10.0.0.2", 1⟩]
      ⟨"http://d", "10.0.0.1", 1⟩ ⟨"http://i", "10.0.0.2", 1⟩ "N" "Nu"
      (by decide) (by decide) (by decide)⟩

/-- C4, at a concrete input: with `N` held by `http://d`, `http://i` at base length 1 gets
the 2-character id `Nu`. -/
theorem create_link_minimal_witness :
    (∀ r ∈ [(⟨"N", "http://d", "10.0.0.1"⟩ : Record)], r.url ≠ "http://i") ∧
    (create_link ⟨false, false⟩ "http://i" "10.0.0.2" 1 [⟨"N", "http://d", "10.0.0.1"⟩]).1
      = Outcome.returned "Nu" ∧
    ∃ L : Nat, (1 : Int) ≤ (L : Int) ∧ L ≤ 44 ∧
      "Nu" = str_take (String.mk (base64_encode (sha256 (bytes_of "http://i")))) L ∧
      "Nu".length = L ∧
      (∀ r ∈ [(⟨"N", "http://d", "10.0.0.1"⟩ : Record)], r.url ≠ "http://i" → r.id ≠ "Nu") ∧
      ∀ k : Nat, (1 : Int) ≤ (k : Int) → k < L →
        ∃ r ∈ [(⟨"N", "http://d", "10.0.0.1"⟩ : Record)], r.url ≠ "http://i" ∧
          r.id = str_take (String.mk (base64_encode (sha256 (bytes_of "http://i")))) k :=
  ⟨by decide, by decide,
    create_link_minimal ⟨false, false⟩ [⟨"N", "http://d", "10.0.0.1"⟩] "http://i"
      "10.0.0.2" 1 "Nu" (by decide) (by decide)⟩

/-- C6, at a concrete input: a new url appends one row, the old row stays. -/
theorem create_link_effect_witness :
    (create_link ⟨true, true⟩ "http://i" "10.0.0.2" 1 [⟨"N", "http://d", "10.0.0.1"⟩]).1
      = Outcome.returned "Nu" ∧
    (create_link ⟨true, true⟩ "http://i" "10.0.0.2" 1 [⟨"N", "http://d", "10.0.0.1"⟩]).2
      = [⟨"N", "http://d", "10.0.0.1"⟩] ++ [⟨"Nu", "http://i", "10.0.0.2"⟩] :=
  ⟨by decide,
    ((create_link_effect ⟨true, true⟩ [⟨"N", "http://d", "10.0.0.1"⟩] "http://i"
      "10.0.0.2" 1 "Nu" (by decide)).2.1 (by decide)).1⟩

/-- C7, at a concrete input: base length 44 and a table in which the full encoded digest
of `http://example.com` is already the id of another url. The call panics; the table is
unchanged. -/
theorem create_link_exhausted_witness :
    str_take (shasum "http://example.com") 44
      = "8OamqXBCpPHxyH9ffUQxWy2FLC31x5kcxmJBv3By0cQ=" ∧
    create_link ⟨true, true⟩ "http://example.com" "10.0.0.1" 44
        [⟨"8OamqXBCpPHxyH9ffUQxWy2FLC31x5kcxmJBv3By0cQ=", "http://example.org", "10.0.0.2"⟩]
      = (Outcome.panicked,
        [⟨"8OamqXBCpPHxyH9ffUQxWy2FLC31x5kcxmJBv3By0cQ=", "http://example.org", "10.0.0.2"⟩]) :=
  ⟨by decide,
    create_link_exhausted ⟨true, true⟩
      [⟨"8OamqXBCpPHxyH9ffUQxWy2FLC31x5kcxmJBv3By0cQ=", "http://example.org", "10.0.0.2"⟩]
      "http://example.com" "10.0.0.1" 44 (by decide)
      (fun k h1 h2 => by
        have hk : k = 44 := by omega
        subst hk
        exact ⟨_, List.mem_singleton.mpr rfl, by decide⟩)⟩

/-! ## The collision test -/

/-- C10 (the collision test, as the code has it): `check_uniqueness` returns true exactly
when no row has the candidate id, and false exactly when some row has it, whatever that
row's url; the `url` argument plays no part. For an input url that has no row in the table,
a false answer is the same as a row of a different url holding the id. -/
theorem check_uniqueness_spec (id url : String) (db : Store) :
    (check_uniqueness id url db = true ↔ ∀ r ∈ db, r.id ≠ id) ∧
    (check_uniqueness id url db = false ↔ ∃ r ∈ db, r.id = id) ∧
    ((∀ r ∈ db, r.url ≠ url) →
      (check_uniqueness id url db = false ↔ ∃ r ∈ db, r.id = id ∧ r.url ≠ url)) := by
  rw [check_uniqueness_eq]
  refine ⟨?_, ?_, ?_⟩
  · rw [Bool.not_eq_true', id_exists_eq_false_iff]
  · rw [Bool.not_eq_false', id_exists_iff]
  · intro hnew
    rw [Bool.not_eq_false', id_exists_iff]
    constructor
    · rintro ⟨r, hr, hid⟩
      exact ⟨r, hr, hid, hnew r hr⟩
    · rintro ⟨r, hr, hid, _⟩
      exact ⟨r, hr, hid⟩

/-- C10 as stated fails: the only row holding the candidate id has the input url, and
`check_uniqueness` still reports a collision. -/
theorem check_uniqueness_counterexample :
    (∀ r ∈ [(⟨"8OamqX", "http://example.com", "10.0.0.1"⟩ : Record)],
      r.id = "8OamqX" → r.url = "http://example.com") ∧
    check_uniqueness "8OamqX" "http://example.com"
      [⟨"8OamqX", "http://example.com", "10.0.0.1"⟩] = false := by
  decide

/-! ## Scheme normalisation in the POST branch of `handler` -/

theorem index_from_bound (sub : List Char) :
    ∀ (l : List Char) (i : Nat), index_from sub l i = -1 ∨ (i : Int) ≤ index_from sub l i := by
  intro l
  induction l with
  | nil =>
    intro i
    unfold index_from
    split
    · exact Or.inr (le_refl _)
    · exact Or.inl rfl
  | cons c cs ih =>
    intro i
    unfold index_from
    split
    · exact Or.inr (le_refl _)
    · rcases ih (i + c.utf8Size) with h | h
      · exact Or.inl h
      · right
        have : ((i : Int)) ≤ ((i + c.utf8Size : Nat) : Int) := by push_cast; omega
        exact le_trans this h

/-- The test `strings.Index(s, substr) == 0` holds exactly when `s` begins with `substr`. -/
theorem strings_Index_eq_zero_iff (s sub : String) :
    strings_Index s sub = 0 ↔ sub.data <+: s.data := by
  unfold strings_Index
  cases hs : s.data with
  | nil =>
    unfold index_from
    by_cases h : sub.data = []
    · simp [h]
    · simp [h]
  | cons c cs =>
    unfold index_from
    by_cases h : sub.data.isPrefixOf (c :: cs) = true
    · simp only [h, if_true]
      simpa using List.isPrefixOf_iff_prefix.mp h
    · simp only [h]
      have hn : ¬ sub.data <+: c :: cs := fun hp => h (List.isPrefixOf_iff_prefix.mpr hp)
      simp only [hn, iff_false]
      have hpos := c.utf8Size_pos
      simp only [Bool.false_eq_true, if_false]
      rcases index_from_bound sub.data cs (0 + c.utf8Size) with hb | hb
      · intro h0
        rw [h0] at hb
        omega
      · intro h0
        rw [h0] at hb
        have : (0 : Int) < ((0 + c.utf8Size : Nat) : Int) := by push_cast; omega
        omega

theorem strings_Join_pair (a b : String) : strings_Join [a, b] "" = a ++ b := by
  simp [strings_Join, String.intercalate, String.intercalate.go]

/-- What the guard of line 112 computes: it tests the four letters `http` and nothing
after them. A url beginning with them is passed on unchanged, which covers `http://` and
`https://`; any other url is passed on with `http://` in front. -/
theorem handler_post_url_guard (url : String) :
    ("http".data <+: url.data → handler_post_url url = url) ∧
    (¬ "http".data <+: url.data → handler_post_url url = "http://" ++ url) ∧
    ("http://".data <+: url.data ∨ "https://".data <+: url.data →
      handler_post_url url = url) ∧
    "http".data <+: (handler_post_url url).data ∧
    (∀ (sch : Schema) (ip : String) (hash_len : Int) (db : Store),
      handler_post sch url ip hash_len db
        = create_link sch (handler_post_url url) ip hash_len db) := by
  have hyes : "http".data <+: url.data → handler_post_url url = url := by
    intro h
    have := (strings_Index_eq_zero_iff url "http").mpr h
    simp [handler_post_url, this]
  have hno : ¬ "http".data <+: url.data → handler_post_url url = "http://" ++ url := by
    intro h
    have : strings_Index url "http" ≠ 0 := fun h0 =>
      h ((strings_Index_eq_zero_iff url "http").mp h0)
    simp [handler_post_url, this, strings_Join_pair]
  refine ⟨hyes, hno, ?_, ?_, fun _ _ _ _ => rfl⟩
  · intro h
    apply hyes
    rcases h with h | h
    · exact List.IsPrefix.trans (by decide) h
    · exact List.IsPrefix.trans (by decide) h
  · by_cases h : "http".data <+: url.data
    · rw [hyes h]; exact h
    · rw [hno h]
      rw [String.data_append]
      exact List.IsPrefix.trans (by decide) (List.prefix_append _ _)

/-- C8 (the code at the failing input): `httpbin.org` begins with neither `http://` nor
`https://`, yet the POST branch passes it to `create_link` as it is, and the row stored for
it has no scheme; `example.com` and `www.httpbin.org`, which do not begin with the letters
`http`, get `http://` in front, as the comment above the guard says. -/
theorem handler_post_url_drops_scheme :
    ¬ ("http://".data <+: "httpbin.org".data ∨ "https://".data <+: "httpbin.org".data) ∧
    strings_Index "httpbin.org" "http" = 0 ∧
    handler_post_url "httpbin.org" = "httpbin.org" ∧
    handler_post_url "httpbin.org" ≠ "http://" ++ "httpbin.org" ∧
    ¬ ("http://".data <+: (handler_post_url "httpbin.org").data ∨
        "https://".data <+: (handler_post_url "httpbin.org").data) ∧
    handler_post ⟨true, true⟩ "httpbin.org" "10.0.0.1" 6 []
      = (Outcome.returned "kX7QiZ", [⟨"kX7QiZ", "httpbin.org", "10.0.0.1"⟩]) ∧
    serve_redirect "kX7QiZ" (handler_post ⟨true, true⟩ "httpbin.org" "10.0.0.1" 6 []).2
      = Response.redirect "httpbin.org" 307 ∧
    handler_post_url "example.com" = "http://example.com" ∧
    handler_post_url "www.httpbin.org" = "http://www.httpbin.org" := by
  decide

/-! ## Concurrent calls -/

theorem run_alone_halted (sch : Schema) (c : Call) (o : Outcome) (db : Store) :
    ∀ n : Nat, run_alone sch c n (Pc.halted o, db) = (Pc.halted o, db) := by
  intro n
  induction n with
  | zero => rfl
  | succ n ih => simp only [run_alone, step]; exact ih

theorem run_alone_probe (sch : Schema) (c : Call) (db : Store) :
    ∀ (fuel : Nat) (L : Int) (s : String),
      collision_loop db (shasum c.full_url) c.full_url fuel L s ≠ LoopExit.out_of_fuel →
      run_alone sch c (fuel + 1) (Pc.probe L s, db) =
        match collision_loop db (shasum c.full_url) c.full_url fuel L s with
        | LoopExit.unique t =>
          (Pc.halted (Outcome.returned t), insert_link sch t c.full_url c.ipaddr db)
        | LoopExit.out_of_range => (Pc.halted Outcome.panicked, db)
        | LoopExit.out_of_fuel => (Pc.halted Outcome.looping, db) := by
  intro fuel
  induction fuel with
  | zero => intro L s h; simp [collision_loop] at h
  | succ n ih =>
    intro L s h
    unfold collision_loop at h ⊢
    simp only [run_alone, step]
    cases hcu : check_uniqueness s c.full_url db with
    | false =>
      simp only [hcu, Bool.not_false, if_true] at h ⊢
      cases hsl : slice_to (shasum c.full_url) (L + 1) with
      | none => simp only [run_alone_halted]
      | some t =>
        simp only [hsl] at h
        exact ih (L + 1) t h
    | true =>
      simp only [Bool.not_true, Bool.false_eq_true, if_false]
      cases n with
      | zero => rfl
      | succ m => simp only [run_alone, step, run_alone_halted]

theorem create_link_unfold (sch : Schema) (u o : String) (L0 : Int) (db : Store) :
    create_link sch u o L0 db =
      match slice_to (shasum u) L0 with
      | none => (Outcome.panicked, db)
      | some shortsum =>
        if url_exists u db then (Outcome.returned (query_id_by_url u db), db)
        else
          match collision_loop db (shasum u) u ((shasum u).length + 1) L0 shortsum with
          | LoopExit.unique s => (Outcome.returned s, insert_link sch s u o db)
          | LoopExit.out_of_range => (Outcome.panicked, db)
          | LoopExit.out_of_fuel => (Outcome.looping, db) := rfl

/-- A call that runs with no other call in between is `create_link`: after at most 47
statements the step machine has halted with the outcome and the table of the function. -/
theorem run_alone_eq_create_link (sch : Schema) (c : Call) (db : Store) :
    run_alone sch c 47 (Pc.entry, db)
      = (Pc.halted (create_link sch c.full_url c.ipaddr c.leng db).1,
         (create_link sch c.full_url c.ipaddr c.leng db).2) := by
  have hnl := create_link_never_looping sch c.full_url c.ipaddr c.leng db
  have hlen := shasum_length c.full_url
  rw [create_link_unfold] at hnl ⊢
  show run_alone sch c 46 (step sch c Pc.entry db) = _
  have hstep : step sch c Pc.entry db =
      match slice_to (shasum c.full_url) c.leng with
      | none => (Pc.halted Outcome.panicked, db)
      | some shortsum =>
        if url_exists c.full_url db then (Pc.lookup, db) else (Pc.probe c.leng shortsum, db) :=
    rfl
  rw [hstep]
  cases hsl : slice_to (shasum c.full_url) c.leng with
  | none => exact run_alone_halted sch c _ db 46
  | some s =>
    simp only [hsl] at hnl
    cases hu : url_exists c.full_url db with
    | true =>
      simp only [if_true]
      show run_alone sch c 45 (step sch c Pc.lookup db) = _
      exact run_alone_halted sch c _ db 45
    | false =>
      simp only [hu, Bool.false_eq_true, if_false, hlen] at hnl ⊢
      have hne : collision_loop db (shasum c.full_url) c.full_url 45 c.leng s
          ≠ LoopExit.out_of_fuel := by
        intro h
        rw [h] at hnl
        exact hnl rfl
      rw [run_alone_probe sch c db 45 c.leng s hne]
      revert hne
      cases collision_loop db (shasum c.full_url) c.full_url 45 c.leng s with
      | unique t => intro _; rfl
      | out_of_range => intro _; rfl
      | out_of_fuel => intro h; exact absurd rfl h

/-- C9 (what the code does): two concurrent calls submitting `http://example.com` to the
empty table with base length 6. Both pass the known-url test before either inserts; the
first then probes and inserts `8OamqX`; the second now finds its candidate taken, extends
it and returns `8OamqXB`. The two calls return different ids, whatever the constraints of
the table; without a uniqueness constraint on the url the table ends with two rows for the
url, and with one the second id has no row. -/
theorem concurrent_duplicate_diverges (sch : Schema) :
    (interleave sch
      [⟨"http://example.com", "10.0.0.1", 6⟩, ⟨"http://example.com", "10.0.0.2", 6⟩]
      [0, 1, 0, 0, 1, 1, 1] ([Pc.entry, Pc.entry], [])).1
      = [Pc.halted (Outcome.returned "8OamqX"), Pc.halted (Outcome.returned "8OamqXB")] ∧
    (rows_by_url "http://example.com" (interleave sch
      [⟨"http://example.com", "10.0.0.1", 6⟩, ⟨"http://example.com", "10.0.0.2", 6⟩]
      [0, 1, 0, 0, 1, 1, 1] ([Pc.entry, Pc.entry], [])).2).length
      = (if sch.url_unique then 1 else 2) ∧
    serve_redirect "8OamqXB" (interleave sch
      [⟨"http://example.com", "10.0.0.1", 6⟩, ⟨"http://example.com", "10.0.0.2", 6⟩]
      [0, 1, 0, 0, 1, 1, 1] ([Pc.entry, Pc.entry], [])).2
      = (if sch.url_unique then Response.not_found
          else Response.redirect "http://example.com" 307) := by
  rcases sch with ⟨_ | _, _ | _⟩ <;> decide

end Tshort
